import Mathlib

/-!
Verification of the native sandboxing core (IORelocator / SubstrateHook).

Paths are modelled as byte sequences (`List Char`), `std::map` as a
strictly-sorted association list, and the two stateful singletons as explicit
state records threaded through each operation.  Every definition below is a
direct shallow embedding of the corresponding C++ function; the TODO-stub
architecture backends of the source (which unconditionally return `true` and
patch nothing) are embedded as the constants they are.
-/

namespace VSpec

abbrev Path := List Char

/-! ## FileUtils::normalizePath (utils/FileUtils.cpp) -/

/-- Embeds the `std::replace(normalized.begin(), normalized.end(), '\\', '/')`
step: every backslash becomes a forward slash. -/
def replaceSep (c : Char) : Char := if c = '\\' then '/' else c

/-- The scan of `std::unique`: `prev` is the last element kept; a next
element equal to it under the predicate `a == '/' && b == '/'` is dropped,
any other element is kept and becomes the new `prev`. -/
def squeezeAux (prev : Char) : Path → Path
  | [] => []
  | b :: rest =>
    if prev = '/' ∧ b = '/' then squeezeAux prev rest
    else b :: squeezeAux b rest

/-- Embeds the `std::unique` step with the binary predicate
`a == '/' && b == '/'`: consecutive duplicate separators collapse to one
(the first element is always kept). -/
def squeezeSlashes : Path → Path
  | [] => []
  | a :: rest => a :: squeezeAux a rest

/-- Embeds `FileUtils::normalizePath`: empty input returned as is, separators
unified, duplicate separators removed, and a trailing separator dropped unless
the whole string is a single character. -/
def normalizePath (path : Path) : Path :=
  if path = [] then path
  else if 1 < (squeezeSlashes (path.map replaceSep)).length ∧
      (squeezeSlashes (path.map replaceSep)).getLast? = some '/' then
    (squeezeSlashes (path.map replaceSep)).dropLast
  else squeezeSlashes (path.map replaceSep)

/-! ## `std::map` as a strictly-sorted association list -/

/-- Lexicographic byte order on paths, as `std::string::operator<` compares
keys inside `std::map<std::string, std::string>`. -/
def pathLt : Path → Path → Bool
  | [], [] => false
  | [], _ :: _ => true
  | _ :: _, [] => false
  | a :: as, b :: bs =>
    if a < b then true
    else if b < a then false
    else pathLt as bs

/-- Key order of `std::map<void*, HookInfo>`: addresses compared as numbers. -/
def ltNat (a b : Nat) : Bool := decide (a < b)

/-- `m[k] = v` on a `std::map` held as a sorted association list: replace the
value if the key is present, otherwise insert at the ordered position. -/
def alInsert {α β : Type} (lt : α → α → Bool) (k : α) (v : β) :
    List (α × β) → List (α × β)
  | [] => [(k, v)]
  | (k0, v0) :: rest =>
    if lt k k0 then (k, v) :: (k0, v0) :: rest
    else if lt k0 k then (k0, v0) :: alInsert lt k v rest
    else (k0, v) :: rest

/-- `std::map::find`: the value stored at key `k`, if any. -/
def alFind {α β : Type} [DecidableEq α] (k : α) : List (α × β) → Option β
  | [] => none
  | (k0, v0) :: rest => if k = k0 then some v0 else alFind k rest

/-- `std::map::erase(it)` after a successful `find`: drop the (unique) entry
with key `k`. -/
def alErase {α β : Type} [DecidableEq α] (k : α) :
    List (α × β) → List (α × β)
  | [] => []
  | (k0, v0) :: rest => if k = k0 then rest else (k0, v0) :: alErase k rest

/-- `m.find(k) != m.end()`. -/
def alContains {α β : Type} [DecidableEq α] (k : α) (m : List (α × β)) : Bool :=
  (alFind k m).isSome

/-- The `std::map` representation invariant: entries strictly sorted by key. -/
def alSorted {α β : Type} (lt : α → α → Bool) (m : List (α × β)) : Prop :=
  List.Pairwise (fun a b => lt a.1 b.1 = true) m

/-! ## SubstrateHook (Substrate/SubstrateHook.cpp) -/

/-- `SubstrateHook::Architecture`. -/
inductive Architecture where
  | ARCH_UNKNOWN
  | ARCH_ARM
  | ARCH_ARM64
  | ARCH_X86
  | ARCH_X86_64
deriving DecidableEq, Repr

/-- `SubstrateHook::HookInfo` (addresses modelled as `Nat`, null = 0). -/
structure HookInfo where
  targetMethod : Nat
  hookMethod : Nat
  backupMethod : Nat
  architecture : Architecture
  hookTime : Nat
deriving DecidableEq, Repr

/-- The mutable state of the `SubstrateHook` singleton. -/
structure SubstrateHook where
  mIsInitialized : Bool
  mHookManager : List (Nat × HookInfo)
deriving DecidableEq, Repr

/-- `SubstrateHook::hookMethodARM` — TODO stub in the source, returns true. -/
def hookMethodARM (targetMethod hookMethod backupMethod : Nat) : Bool := true

/-- `SubstrateHook::hookMethodARM64` — TODO stub, returns true. -/
def hookMethodARM64 (targetMethod hookMethod backupMethod : Nat) : Bool := true

/-- `SubstrateHook::hookMethodX86` — TODO stub, returns true. -/
def hookMethodX86 (targetMethod hookMethod backupMethod : Nat) : Bool := true

/-- `SubstrateHook::hookMethodX86_64` — TODO stub, returns true. -/
def hookMethodX86_64 (targetMethod hookMethod backupMethod : Nat) : Bool := true

/-- `SubstrateHook::unhookMethodARM` — TODO stub, returns true. -/
def unhookMethodARM (targetMethod : Nat) (hookInfo : HookInfo) : Bool := true

/-- `SubstrateHook::unhookMethodARM64` — TODO stub, returns true. -/
def unhookMethodARM64 (targetMethod : Nat) (hookInfo : HookInfo) : Bool := true

/-- `SubstrateHook::unhookMethodX86` — TODO stub, returns true. -/
def unhookMethodX86 (targetMethod : Nat) (hookInfo : HookInfo) : Bool := true

/-- `SubstrateHook::unhookMethodX86_64` — TODO stub, returns true. -/
def unhookMethodX86_64 (targetMethod : Nat) (hookInfo : HookInfo) : Bool := true

/-- `SubstrateHook::initializeARMHook` — TODO stub, returns true. -/
def initializeARMHook : Bool := true

/-- `SubstrateHook::initializeARM64Hook` — TODO stub, returns true. -/
def initializeARM64Hook : Bool := true

/-- `SubstrateHook::initialize`.  `arch` stands for the compile-time result of
`getArchitecture()`, fixed for the process. -/
def SubstrateHook.initializeSubstrate (s : SubstrateHook) : Bool × SubstrateHook :=
  if s.mIsInitialized then (true, s)
  else
    let s1 : SubstrateHook := { s with mHookManager := [] }
    if initializeARMHook = false then (false, s1)
    else if initializeARM64Hook = false then (false, s1)
    else (true, { s1 with mIsInitialized := true })

/-- `SubstrateHook::hookMethod`.  `arch` is the cached `getArchitecture()`
value; `now` the `getCurrentTime()` reading for this call. -/
def SubstrateHook.hookMethod (arch : Architecture) (now : Nat) (s : SubstrateHook)
    (targetMethod hookMethod backupMethod : Nat) : Bool × SubstrateHook :=
  if s.mIsInitialized = false then (false, s)
  else if targetMethod = 0 ∨ hookMethod = 0 then (false, s)
  else
    match arch with
    | .ARCH_UNKNOWN => (false, s)
    | _ =>
      let success :=
        match arch with
        | .ARCH_ARM => hookMethodARM targetMethod hookMethod backupMethod
        | .ARCH_ARM64 => hookMethodARM64 targetMethod hookMethod backupMethod
        | .ARCH_X86 => hookMethodX86 targetMethod hookMethod backupMethod
        | .ARCH_X86_64 => hookMethodX86_64 targetMethod hookMethod backupMethod
        | .ARCH_UNKNOWN => false
      if success then
        let hookInfo : HookInfo :=
          { targetMethod := targetMethod, hookMethod := hookMethod,
            backupMethod := backupMethod, architecture := arch,
            hookTime := now }
        let registry := alInsert ltNat targetMethod hookInfo s.mHookManager
        (true, { s with mHookManager := registry })
      else (false, s)

/-- `SubstrateHook::unhookMethod`. -/
def SubstrateHook.unhookMethod (s : SubstrateHook) (targetMethod : Nat) :
    Bool × SubstrateHook :=
  if s.mIsInitialized = false then (false, s)
  else
    match alFind targetMethod s.mHookManager with
    | none => (false, s)
    | some hookInfo =>
      let success :=
        match hookInfo.architecture with
        | .ARCH_ARM => unhookMethodARM targetMethod hookInfo
        | .ARCH_ARM64 => unhookMethodARM64 targetMethod hookInfo
        | .ARCH_X86 => unhookMethodX86 targetMethod hookInfo
        | .ARCH_X86_64 => unhookMethodX86_64 targetMethod hookInfo
        | .ARCH_UNKNOWN => false
      if success then
        (true, { s with mHookManager := alErase targetMethod s.mHookManager })
      else (false, s)

/-- `SubstrateHook::isMethodHooked`. -/
def SubstrateHook.isMethodHooked (s : SubstrateHook) (targetMethod : Nat) : Bool :=
  if s.mIsInitialized = false then false
  else alContains targetMethod s.mHookManager

/-- `SubstrateHook::cleanupAllHooks`: unhook every registered target (the
architecture stubs succeed), then clear the table. -/
def SubstrateHook.cleanupAllHooks (s : SubstrateHook) : SubstrateHook :=
  let s1 := (s.mHookManager.map Prod.fst).foldl
    (fun acc k => (SubstrateHook.unhookMethod acc k).2) s
  { s1 with mHookManager := [] }

/-- `SubstrateHook::cleanup` (the ARM/ARM64 cleanup stubs carry no state). -/
def SubstrateHook.cleanup (s : SubstrateHook) : SubstrateHook :=
  if s.mIsInitialized = false then s
  else
    let s1 := SubstrateHook.cleanupAllHooks s
    { s1 with mIsInitialized := false }

/-! ## IORelocator (Foundation/IORelocator.cpp) -/

/-- The mutable state of the `IORelocator` singleton. -/
structure IORelocator where
  mIsInitialized : Bool
  mPathMappings : List (Path × Path)
deriving DecidableEq, Repr

/-- The process state the facade operates on: the two coupled singletons. -/
structure VSpace where
  relocator : IORelocator
  substrate : SubstrateHook
deriving DecidableEq, Repr

/-- The eight `IORelocator::hookOpen` … `hookRmdir` installers — TODO stubs in
the source, each returns true and installs nothing. -/
def hookOpen : Bool := true

/-- `IORelocator::hookStat` — TODO stub, returns true. -/
def hookStat : Bool := true

/-- `IORelocator::hookAccess` — TODO stub, returns true. -/
def hookAccess : Bool := true

/-- `IORelocator::hookUnlink` — TODO stub, returns true. -/
def hookUnlink : Bool := true

/-- `IORelocator::hookRename` — TODO stub, returns true. -/
def hookRename : Bool := true

/-- `IORelocator::hookOpendir` — TODO stub, returns true. -/
def hookOpendir : Bool := true

/-- `IORelocator::hookMkdir` — TODO stub, returns true. -/
def hookMkdir : Bool := true

/-- `IORelocator::hookRmdir` — TODO stub, returns true. -/
def hookRmdir : Bool := true

/-- `IORelocator::hookFileOperations`: the five file-operation installers in
source order, stopping at the first failure. -/
def hookFileOperations : Bool :=
  if hookOpen = false then false
  else if hookStat = false then false
  else if hookAccess = false then false
  else if hookUnlink = false then false
  else if hookRename = false then false
  else true

/-- `IORelocator::hookDirectoryOperations`: the three directory installers. -/
def hookDirectoryOperations : Bool :=
  if hookOpendir = false then false
  else if hookMkdir = false then false
  else if hookRmdir = false then false
  else true

/-- `IORelocator::initializeSystemCallHooks`: initialize the Substrate engine,
then the file and directory hooks. -/
def initializeSystemCallHooks (w : VSpace) : Bool × VSpace :=
  let r := SubstrateHook.initializeSubstrate w.substrate
  let w1 : VSpace := { w with substrate := r.2 }
  if r.1 = false then (false, w1)
  else if hookFileOperations = false then (false, w1)
  else if hookDirectoryOperations = false then (false, w1)
  else (true, w1)

/-- `IORelocator::initialize`: no-op when already initialized; otherwise clear
the mappings, install the system-call hooks, and mark initialized on success. -/
def IORelocator.initializeRelocator (w : VSpace) : Bool × VSpace :=
  if w.relocator.mIsInitialized then (true, w)
  else
    let w1 : VSpace := { w with relocator := { w.relocator with mPathMappings := [] } }
    let r := initializeSystemCallHooks w1
    if r.1 then
      (true, { r.2 with relocator := { r.2.relocator with mIsInitialized := true } })
    else (false, r.2)

/-- `IORelocator::cleanupSystemCallHooks`: delegates to `SubstrateHook::cleanup`. -/
def cleanupSystemCallHooks (w : VSpace) : VSpace :=
  { w with substrate := SubstrateHook.cleanup w.substrate }

/-- `IORelocator::cleanup`: no-op when not initialized; otherwise tear down the
hooks, clear the mappings and drop the initialized flag. -/
def IORelocator.cleanup (w : VSpace) : VSpace :=
  if w.relocator.mIsInitialized = false then w
  else
    let w1 := cleanupSystemCallHooks w
    { w1 with relocator := { mIsInitialized := false, mPathMappings := [] } }

/-- `IORelocator::addPathMapping`: fails when uninitialized or when either
path normalizes to the empty string; otherwise stores
`mPathMappings[normalizedOriginal] = normalizedVirtual`. -/
def IORelocator.addPathMapping (s : IORelocator) (originalPath virtualPath : Path) :
    Bool × IORelocator :=
  if s.mIsInitialized = false then (false, s)
  else if normalizePath originalPath = [] ∨ normalizePath virtualPath = [] then (false, s)
  else (true, { s with mPathMappings := alInsert pathLt (normalizePath originalPath) (normalizePath virtualPath) s.mPathMappings })

/-- `IORelocator::removePathMapping`: fails when uninitialized or when the
normalized key is absent; otherwise erases exactly that entry. -/
def IORelocator.removePathMapping (s : IORelocator) (originalPath : Path) :
    Bool × IORelocator :=
  if s.mIsInitialized = false then (false, s)
  else match alFind (normalizePath originalPath) s.mPathMappings with
  | some _ => (true, { s with mPathMappings := alErase (normalizePath originalPath) s.mPathMappings })
  | none => (false, s)

/-- The scan loop of `IORelocator::redirectPath`: keeps the rule of greatest
original-prefix length whose original is a prefix of the normalized path
(`normalizedPath.find(original) == 0 && original.length() > bestLength`). -/
def findBestMatch (normalizedPath : Path) :
    List (Path × Path) → Path × Path × Nat → Path × Path × Nat
  | [], best => best
  | (original, virtualPath) :: rest, (bestMatch, bestVirtualPath, bestLength) =>
    findBestMatch normalizedPath rest
      (if original.isPrefixOf normalizedPath ∧ bestLength < original.length
       then (original, virtualPath, original.length)
       else (bestMatch, bestVirtualPath, bestLength))

/-- `IORelocator::redirectPath`: identity when uninitialized; otherwise the
longest-prefix rule rewrites the normalized path, and with no match the raw
input is returned. -/
def IORelocator.redirectPath (s : IORelocator) (originalPath : Path) : Path :=
  if s.mIsInitialized = false then originalPath
  else if (findBestMatch (normalizePath originalPath) s.mPathMappings ([], [], 0)).1 ≠ [] then
    (findBestMatch (normalizePath originalPath) s.mPathMappings ([], [], 0)).2.1 ++
      (normalizePath originalPath).drop
        (findBestMatch (normalizePath originalPath) s.mPathMappings ([], [], 0)).1.length
  else originalPath

/-- The normalized form promised by the spec: no two adjacent separators. -/
def noDoubleSlash (l : Path) : Prop :=
  List.Chain' (fun a b => ¬(a = '/' ∧ b = '/')) l

/-- The `HookInfo` record that `SubstrateHook::hookMethod` registers on a
successful install. -/
def mkHookInfo (arch : Architecture) (now t h b : Nat) : HookInfo :=
  { targetMethod := t, hookMethod := h, backupMethod := b, architecture := arch, hookTime := now }

/-! ## The C6 trace machinery: call sequences against the registry -/

/-- One call against the `SubstrateHook` registry. -/
inductive SubOp where
  | hook (targetMethod hookMethod backupMethod now : Nat)
  | unhook (targetMethod : Nat)

/-- Run a finite call sequence against the registry state. -/
def runOps (arch : Architecture) : SubstrateHook → List SubOp → SubstrateHook
  | s, [] => s
  | s, SubOp.hook t h b now :: rest =>
    runOps arch (SubstrateHook.hookMethod arch now s t h b).2 rest
  | s, SubOp.unhook t :: rest =>
    runOps arch (SubstrateHook.unhookMethod s t).2 rest

/-- The claim's ledger for one call on an initialized registry: a successful
install of `t` switches it on, an uninstall of `t` switches it off exactly
when the record was present (a failed uninstall of an absent `t` leaves it
off, which the `false` branch also captures). -/
def specStep (arch : Architecture) (t : Nat) (b : Bool) : SubOp → Bool
  | SubOp.hook t' h' _ _ =>
    if t' = t ∧ t' ≠ 0 ∧ h' ≠ 0 ∧ arch ≠ Architecture.ARCH_UNKNOWN then true else b
  | SubOp.unhook t' => if t' = t then false else b

/-- The claim's ledger over a whole call sequence. -/
def specHooked (arch : Architecture) (t : Nat) : Bool → List SubOp → Bool
  | b, [] => b
  | b, op :: rest => specHooked arch t (specStep arch t b op) rest

/-- Registry state invariant: initialized, every record owned by a known
architecture backend, table strictly sorted by target address. -/
def subInv (arch : Architecture) (s : SubstrateHook) : Prop :=
  s.mIsInitialized = true ∧
  (∀ e ∈ s.mHookManager, e.2.architecture ≠ Architecture.ARCH_UNKNOWN) ∧
  alSorted ltNat s.mHookManager

/-! ## Order facts for the two map key orders -/

theorem ltNat_irrefl (a : Nat) : ltNat a a = false := by
  simp [ltNat]

theorem ltNat_anti (a b : Nat) (h1 : ltNat a b = false) (h2 : ltNat b a = false) :
    a = b := by
  simp [ltNat] at h1 h2; omega

theorem ltNat_trans (a b c : Nat) (h1 : ltNat a b = true) (h2 : ltNat b c = true) :
    ltNat a c = true := by
  simp [ltNat] at h1 h2 ⊢; omega


theorem pathLt_irrefl : ∀ p : Path, pathLt p p = false
  | [] => rfl
  | a :: as => by
    have ih := pathLt_irrefl as
    simp [pathLt, lt_irrefl a, ih]

theorem pathLt_cons_iff (a b : Char) (as bs : Path) :
    pathLt (a :: as) (b :: bs) = true ↔ a < b ∨ (a = b ∧ pathLt as bs = true) := by
  rcases lt_trichotomy a b with h | h | h
  · simp [pathLt, h]
  · subst h
    simp [pathLt, lt_irrefl a]
  · simp only [pathLt, if_neg (not_lt_of_gt h), if_pos h]
    constructor
    · intro hf
      exact absurd hf Bool.false_ne_true
    · rintro (hc | ⟨hc, _⟩)
      · exact absurd hc (not_lt_of_gt h)
      · exact absurd hc (ne_of_gt h)

theorem pathLt_anti : ∀ p q : Path, pathLt p q = false → pathLt q p = false → p = q
  | [], [], _, _ => rfl
  | [], _ :: _, h1, _ => by simp [pathLt] at h1
  | _ :: _, [], _, h2 => by simp [pathLt] at h2
  | a :: as, b :: bs, h1, h2 => by
    rcases lt_trichotomy a b with h | h | h
    · simp [pathLt, h] at h1
    · subst h
      simp [pathLt, lt_irrefl a] at h1 h2
      rw [pathLt_anti as bs h1 h2]
    · simp [pathLt, h] at h2

theorem pathLt_trans : ∀ p q r : Path, pathLt p q = true → pathLt q r = true →
    pathLt p r = true
  | [], _ :: _, _ :: _, _, _ => rfl
  | [], [], _, h1, _ => by simp [pathLt] at h1
  | [], _ :: _, [], _, h2 => by simp [pathLt] at h2
  | _ :: _, [], _, h1, _ => by simp [pathLt] at h1
  | _ :: _, _ :: _, [], _, h2 => by simp [pathLt] at h2
  | a :: as, b :: bs, c :: cs, h1, h2 => by
    rw [pathLt_cons_iff] at h1 h2 ⊢
    rcases h1 with h1 | ⟨rfl, h1⟩
    · rcases h2 with h2 | ⟨rfl, _⟩
      · exact Or.inl (lt_trans h1 h2)
      · exact Or.inl h1
    · rcases h2 with h2 | ⟨rfl, h2⟩
      · exact Or.inl h2
      · exact Or.inr ⟨rfl, pathLt_trans as bs cs h1 h2⟩

/-! ## Association-list lemmas (the `std::map` operations) -/

theorem alFind_insert_self {α β : Type} [DecidableEq α] (lt : α → α → Bool)
    (hIrr : ∀ a, lt a a = false)
    (hAnti : ∀ a b, lt a b = false → lt b a = false → a = b)
    (k : α) (v : β) : ∀ m : List (α × β), alFind k (alInsert lt k v m) = some v
  | [] => by simp [alInsert, alFind]
  | (k0, v0) :: rest => by
    by_cases h1 : lt k k0 = true
    · simp [alInsert, h1, alFind]
    · rw [Bool.not_eq_true] at h1
      by_cases h2 : lt k0 k = true
      · have hne : k ≠ k0 := by
          intro he; subst he; rw [hIrr] at h2; exact Bool.false_ne_true h2
        simp [alInsert, h1, h2, alFind, hne]
        exact alFind_insert_self lt hIrr hAnti k v rest
      · rw [Bool.not_eq_true] at h2
        have he : k = k0 := hAnti k k0 h1 h2
        subst he
        simp [alInsert, h1, alFind]

theorem alFind_insert_ne {α β : Type} [DecidableEq α] (lt : α → α → Bool)
    (hAnti : ∀ a b, lt a b = false → lt b a = false → a = b)
    (k k' : α) (v : β) (hne : k' ≠ k) :
    ∀ m : List (α × β), alFind k' (alInsert lt k v m) = alFind k' m
  | [] => by simp [alInsert, alFind, hne]
  | (k0, v0) :: rest => by
    by_cases h1 : lt k k0 = true
    · simp [alInsert, h1, alFind, hne]
    · rw [Bool.not_eq_true] at h1
      by_cases h2 : lt k0 k = true
      · by_cases h0 : k' = k0
        · simp [alInsert, h1, h2, alFind, h0]
        · simp [alInsert, h1, h2, alFind, h0]
          exact alFind_insert_ne lt hAnti k k' v hne rest
      · rw [Bool.not_eq_true] at h2
        have he : k = k0 := hAnti k k0 h1 h2
        subst he
        simp [alInsert, h1, alFind, hne]

theorem alFind_erase_ne {α β : Type} [DecidableEq α] (k k' : α) (hne : k' ≠ k) :
    ∀ m : List (α × β), alFind k' (alErase k m) = alFind k' m
  | [] => rfl
  | (k0, v0) :: rest => by
    by_cases h : k = k0
    · subst h
      simp [alErase, alFind, hne]
    · by_cases h0 : k' = k0
      · simp [alErase, alFind, h, h0]
      · simp [alErase, alFind, h, h0]
        exact alFind_erase_ne k k' hne rest

theorem alErase_sublist {α β : Type} [DecidableEq α] (k : α) :
    ∀ m : List (α × β), List.Sublist (alErase k m) m
  | [] => List.Sublist.refl []
  | (k0, v0) :: rest => by
    by_cases h : k = k0
    · simp [alErase, h]
    · simp only [alErase, h, if_false]
      exact List.Sublist.cons₂ _ (alErase_sublist k rest)

theorem alFind_mem {α β : Type} [DecidableEq α] (k : α) (v : β) :
    ∀ m : List (α × β), alFind k m = some v → (k, v) ∈ m
  | [], h => by simp [alFind] at h
  | (k0, v0) :: rest, h => by
    by_cases he : k = k0
    · subst he
      simp [alFind] at h
      subst h
      exact List.mem_cons_self _ _
    · simp [alFind, he] at h
      exact List.mem_cons_of_mem _ (alFind_mem k v rest h)

theorem alFind_eq_of_mem {α β : Type} [DecidableEq α] (k : α) (v : β) :
    ∀ m : List (α × β), (k, v) ∈ m → (m.map Prod.fst).Nodup →
      alFind k m = some v
  | [], hm, _ => by simp at hm
  | (k0, v0) :: rest, hm, hnd => by
    rw [List.map_cons, List.nodup_cons] at hnd
    rcases List.mem_cons.mp hm with he | hm'
    · rw [Prod.mk.injEq] at he
      simp [alFind, he.1, he.2]
    · by_cases hne : k = k0
      · exfalso
        apply hnd.1
        rw [← hne]
        exact List.mem_map.mpr ⟨(k, v), hm', rfl⟩
      · simp [alFind, hne]
        exact alFind_eq_of_mem k v rest hm' hnd.2

theorem alFind_erase_self {α β : Type} [DecidableEq α] (k : α) :
    ∀ m : List (α × β), (m.map Prod.fst).Nodup → alFind k (alErase k m) = none
  | [], _ => rfl
  | (k0, v0) :: rest, hnd => by
    rw [List.map_cons, List.nodup_cons] at hnd
    by_cases h : k = k0
    · subst h
      have herase : alErase k ((k, v0) :: rest) = rest := by simp [alErase]
      rw [herase]
      cases hf : alFind k rest with
      | none => rfl
      | some v =>
        exact absurd (List.mem_map.mpr ⟨(k, v), alFind_mem k v rest hf, rfl⟩) hnd.1
    · simp [alErase, h, alFind, h]
      exact alFind_erase_self k rest hnd.2

theorem alInsert_mem {α β : Type} (lt : α → α → Bool)
    (hAnti : ∀ a b, lt a b = false → lt b a = false → a = b) (k : α) (v : β) :
    ∀ m : List (α × β), ∀ x ∈ alInsert lt k v m, x = (k, v) ∨ x ∈ m
  | [], x, hx => Or.inl (by simpa [alInsert] using hx)
  | (k0, v0) :: rest, x, hx => by
    by_cases h1 : lt k k0 = true
    · simp only [alInsert, h1, if_true] at hx
      rcases List.mem_cons.mp hx with h | h
      · exact Or.inl h
      · exact Or.inr h
    · rw [Bool.not_eq_true] at h1
      by_cases h2 : lt k0 k = true
      · simp only [alInsert, h1, h2, Bool.false_eq_true, if_false, if_true] at hx
        rcases List.mem_cons.mp hx with h | h
        · exact Or.inr (by simp [h])
        · rcases alInsert_mem lt hAnti k v rest x h with h' | h'
          · exact Or.inl h'
          · exact Or.inr (List.mem_cons_of_mem _ h')
      · rw [Bool.not_eq_true] at h2
        have he : k = k0 := hAnti k k0 h1 h2
        subst he
        simp only [alInsert, h1, h2, Bool.false_eq_true, if_false] at hx
        rcases List.mem_cons.mp hx with h | h
        · exact Or.inl h
        · exact Or.inr (List.mem_cons_of_mem _ h)

theorem alSorted_nodup {α β : Type} (lt : α → α → Bool) (hIrr : ∀ a, lt a a = false)
    (m : List (α × β)) (hs : alSorted lt m) : (m.map Prod.fst).Nodup := by
  show List.Pairwise (fun a b => a ≠ b) (m.map Prod.fst)
  rw [List.pairwise_map]
  refine hs.imp ?_
  intro a b hab he
  rw [he] at hab
  rw [hIrr] at hab
  exact Bool.false_ne_true hab

theorem alInsert_sorted {α β : Type} (lt : α → α → Bool)
    (hAnti : ∀ a b, lt a b = false → lt b a = false → a = b)
    (hTrans : ∀ a b c, lt a b = true → lt b c = true → lt a c = true)
    (k : α) (v : β) :
    ∀ m : List (α × β), alSorted lt m → alSorted lt (alInsert lt k v m)
  | [], _ => by simp [alInsert, alSorted]
  | (k0, v0) :: rest, hs => by
    unfold alSorted at hs
    rw [List.pairwise_cons] at hs
    by_cases h1 : lt k k0 = true
    · simp only [alInsert, h1, if_true]
      unfold alSorted
      rw [List.pairwise_cons]
      refine ⟨?_, List.Pairwise.cons hs.1 hs.2⟩
      intro x hx
      rcases List.mem_cons.mp hx with he | hx'
      · subst he
        exact h1
      · exact hTrans _ _ _ h1 (hs.1 x hx')
    · rw [Bool.not_eq_true] at h1
      by_cases h2 : lt k0 k = true
      · simp only [alInsert, h1, h2, Bool.false_eq_true, if_false, if_true]
        unfold alSorted
        rw [List.pairwise_cons]
        constructor
        · intro x hx
          rcases alInsert_mem lt hAnti k v rest x hx with he | hx'
          · subst he
            exact h2
          · exact hs.1 x hx'
        · exact alInsert_sorted lt hAnti hTrans k v rest hs.2
      · rw [Bool.not_eq_true] at h2
        have he : k = k0 := hAnti _ _ h1 h2
        subst he
        simp only [alInsert, h1, h2, Bool.false_eq_true, if_false]
        unfold alSorted
        rw [List.pairwise_cons]
        exact ⟨fun x hx => hs.1 x hx, hs.2⟩

theorem alErase_sorted {α β : Type} [DecidableEq α] (lt : α → α → Bool) (k : α)
    (m : List (α × β)) (hs : alSorted lt m) : alSorted lt (alErase k m) :=
  List.Pairwise.sublist (alErase_sublist k m) hs

theorem alErase_alInsert {α β : Type} [DecidableEq α] (lt : α → α → Bool)
    (hAnti : ∀ a b, lt a b = false → lt b a = false → a = b) (k : α) (v : β) :
    ∀ m : List (α × β), alFind k m = none → alErase k (alInsert lt k v m) = m
  | [], _ => by simp [alInsert, alErase]
  | (k0, v0) :: rest, hf => by
    have hne : k ≠ k0 := by
      intro he
      subst he
      simp [alFind] at hf
    have hf' : alFind k rest = none := by
      simpa [alFind, hne] using hf
    by_cases h1 : lt k k0 = true
    · simp [alInsert, h1, alErase, hne]
    · rw [Bool.not_eq_true] at h1
      by_cases h2 : lt k0 k = true
      · simp only [alInsert, h1, h2, Bool.false_eq_true, if_false, if_true]
        simp only [alErase, if_neg hne]
        rw [alErase_alInsert lt hAnti k v rest hf']
      · rw [Bool.not_eq_true] at h2
        exact absurd (hAnti _ _ h1 h2) hne

theorem mem_value_eq {α β : Type} [DecidableEq α] (k : α) (v1 v2 : β)
    (m : List (α × β)) (h1 : (k, v1) ∈ m) (h2 : (k, v2) ∈ m)
    (hnd : (m.map Prod.fst).Nodup) : v1 = v2 := by
  have e1 := alFind_eq_of_mem k v1 m h1 hnd
  have e2 := alFind_eq_of_mem k v2 m h2 hnd
  rw [e1] at e2
  exact Option.some.inj e2

/-! ## Properties of the redirect scan loop -/

theorem fbm_mono (np : Path) : ∀ (m : List (Path × Path)) (acc : Path × Path × Nat),
    acc.2.2 ≤ (findBestMatch np m acc).2.2
  | [], _ => le_refl _
  | (o0, v0) :: rest, (bm, bv, bl) => by
    simp only [findBestMatch]
    split
    · next hc =>
      have h1 := fbm_mono np rest (o0, v0, o0.length)
      exact le_trans (le_of_lt hc.2) h1
    · exact fbm_mono np rest (bm, bv, bl)

theorem fbm_ge (np : Path) : ∀ (m : List (Path × Path)) (acc : Path × Path × Nat)
    (o v : Path), (o, v) ∈ m → o.isPrefixOf np = true →
    o.length ≤ (findBestMatch np m acc).2.2
  | [], _, o, v, hm, _ => by simp at hm
  | (o0, v0) :: rest, (bm, bv, bl), o, v, hm, hp => by
    simp only [findBestMatch]
    rcases List.mem_cons.mp hm with he | hm'
    · have ho : o0 = o := (Prod.mk.injEq _ _ _ _ ▸ he).1.symm
      subst ho
      split
      · next hc =>
        have := fbm_mono np rest (o0, v0, o0.length)
        exact this
      · next hc =>
        rw [not_and, not_lt] at hc
        have hle : o0.length ≤ bl := hc hp
        exact le_trans hle (fbm_mono np rest (bm, bv, bl))
    · split
      · exact fbm_ge np rest _ o v hm' hp
      · exact fbm_ge np rest _ o v hm' hp

theorem fbm_result (np : Path) : ∀ (m : List (Path × Path)) (acc : Path × Path × Nat),
    findBestMatch np m acc = acc ∨
    ∃ o v, (o, v) ∈ m ∧ o.isPrefixOf np = true ∧ acc.2.2 < o.length ∧
      findBestMatch np m acc = (o, v, o.length)
  | [], _ => Or.inl rfl
  | (o0, v0) :: rest, (bm, bv, bl) => by
    simp only [findBestMatch]
    by_cases hc : (o0.isPrefixOf np = true ∧ bl < o0.length)
    · rw [if_pos hc]
      rcases fbm_result np rest (o0, v0, o0.length) with h | ⟨o, v, hm, hp, hlt, heq⟩
      · exact Or.inr ⟨o0, v0, List.mem_cons_self _ _, hc.1, hc.2, h⟩
      · exact Or.inr ⟨o, v, List.mem_cons_of_mem _ hm, hp,
          lt_trans hc.2 hlt, heq⟩
    · rw [if_neg hc]
      rcases fbm_result np rest (bm, bv, bl) with h | ⟨o, v, hm, hp, hlt, heq⟩
      · exact Or.inl h
      · exact Or.inr ⟨o, v, List.mem_cons_of_mem _ hm, hp, hlt, heq⟩

theorem fbm_nomatch (np : Path) : ∀ (m : List (Path × Path)) (acc : Path × Path × Nat),
    (∀ x ∈ m, x.1.isPrefixOf np = false ∨ x.1 = []) →
    findBestMatch np m acc = acc
  | [], _, _ => rfl
  | (o0, v0) :: rest, (bm, bv, bl), h => by
    simp only [findBestMatch]
    have hc : ¬ (o0.isPrefixOf np = true ∧ bl < o0.length) := by
      rcases h (o0, v0) (List.mem_cons_self _ _) with h0 | h0
      · intro hc
        rw [h0] at hc
        exact Bool.false_ne_true hc.1
      · intro hc
        have h0' : o0 = [] := h0
        rw [h0'] at hc
        simp at hc
    rw [if_neg hc]
    exact fbm_nomatch np rest (bm, bv, bl) (fun x hx => h x (List.mem_cons_of_mem _ hx))

theorem eq_of_prefix_length (o o' np : Path) (h1 : o.isPrefixOf np = true)
    (h2 : o'.isPrefixOf np = true) (hlen : o.length = o'.length) : o = o' := by
  rw [List.isPrefixOf_iff_prefix] at h1 h2
  rw [List.prefix_iff_eq_take] at h1 h2
  rw [h1, h2, hlen]

theorem fbm_select (np : Path) (m : List (Path × Path)) (o v : Path)
    (hm : (o, v) ∈ m) (hp : o.isPrefixOf np = true) (hne : o ≠ [])
    (hmax : ∀ x ∈ m, x.1.isPrefixOf np = true → x.1.length ≤ o.length)
    (hnd : (m.map Prod.fst).Nodup) :
    findBestMatch np m ([], [], 0) = (o, v, o.length) := by
  rcases fbm_result np m ([], [], 0) with h | ⟨o', v', hm', hp', _, heq⟩
  · have hge := fbm_ge np m ([], [], 0) o v hm hp
    rw [h] at hge
    simp at hge
    exact absurd hge hne
  · have hle1 : o'.length ≤ o.length := hmax (o', v') hm' hp'
    have hle2 : o.length ≤ o'.length := by
      have hge := fbm_ge np m ([], [], 0) o v hm hp
      rw [heq] at hge
      exact hge
    have ho : o = o' := eq_of_prefix_length o o' np hp hp' (le_antisymm hle2 hle1)
    subst ho
    have hv : v = v' := mem_value_eq o v v' m hm hm' hnd
    subst hv
    exact heq

/-! ## Shape of normalized paths -/

theorem squeezeAux_sublist : ∀ (prev : Char) (l : Path),
    List.Sublist (squeezeAux prev l) l
  | _, [] => List.Sublist.refl []
  | prev, b :: rest => by
    rw [squeezeAux]
    split
    · exact List.Sublist.trans (squeezeAux_sublist prev rest)
        (List.sublist_cons_self b rest)
    · exact List.Sublist.cons₂ b (squeezeAux_sublist b rest)

theorem squeezeSlashes_sublist : ∀ l : Path, List.Sublist (squeezeSlashes l) l
  | [] => List.Sublist.refl []
  | a :: rest => by
    rw [squeezeSlashes]
    exact List.Sublist.cons₂ a (squeezeAux_sublist a rest)

theorem squeezeSlashes_head (a : Char) (l : Path) :
    (squeezeSlashes (a :: l)).head? = some a := by
  rw [squeezeSlashes]
  rfl

theorem squeezeSlashes_ne_nil (a : Char) (l : Path) : squeezeSlashes (a :: l) ≠ [] := by
  rw [squeezeSlashes]
  simp

theorem squeezeAux_chain : ∀ (prev : Char) (l : Path),
    List.Chain' (fun a b => ¬(a = '/' ∧ b = '/')) (prev :: squeezeAux prev l)
  | _, [] => List.chain'_singleton _
  | prev, b :: rest => by
    rw [squeezeAux]
    split
    · exact squeezeAux_chain prev rest
    · next hc =>
      rw [List.chain'_cons]
      exact ⟨hc, squeezeAux_chain b rest⟩

theorem squeezeSlashes_chain : ∀ l : Path, noDoubleSlash (squeezeSlashes l)
  | [] => List.chain'_nil
  | a :: rest => by
    rw [noDoubleSlash, squeezeSlashes]
    exact squeezeAux_chain a rest

theorem normalizePath_chain (p : Path) : noDoubleSlash (normalizePath p) := by
  rw [normalizePath]
  split
  · next h => rw [h]; exact List.chain'_nil
  · split
    · rw [noDoubleSlash, List.dropLast_eq_take]
      exact List.Chain'.take (squeezeSlashes_chain (p.map replaceSep)) _
    · exact squeezeSlashes_chain (p.map replaceSep)

theorem replaceSep_ne_backslash (c : Char) : replaceSep c ≠ '\\' := by
  rw [replaceSep]
  split
  · intro h
    exact absurd h (by decide)
  · next h => exact h

theorem normalizePath_noBackslash (p : Path) : '\\' ∉ normalizePath p := by
  have hmap : '\\' ∉ p.map replaceSep := by
    intro h
    rcases List.mem_map.mp h with ⟨c, _, hc⟩
    exact replaceSep_ne_backslash c hc
  have hsq : '\\' ∉ squeezeSlashes (p.map replaceSep) := fun h =>
    hmap ((squeezeSlashes_sublist (p.map replaceSep)).subset h)
  rw [normalizePath]
  split
  · next h => rw [h]; simp
  · split
    · intro h
      exact hsq ((List.dropLast_sublist _).subset h)
    · exact hsq

theorem normalizePath_last (p : Path) (h : (normalizePath p).getLast? = some '/') :
    normalizePath p = ['/'] := by
  rw [normalizePath] at h ⊢
  split at h
  · next he => rw [he] at h; simp at h
  · next he =>
    have hchain := squeezeSlashes_chain (p.map replaceSep)
    split at h
    · next hcond =>
      exfalso
      obtain ⟨sqinit, hsq⟩ := List.getLast?_eq_some_iff.mp hcond.2
      rw [hsq] at h
      rw [List.dropLast_concat] at h
      obtain ⟨sqinit2, hsq2⟩ := List.getLast?_eq_some_iff.mp h
      rw [noDoubleSlash, hsq, hsq2] at hchain
      rw [List.append_assoc] at hchain
      have h2 := (List.chain'_append.mp hchain).2.1
      rw [show (['/'] ++ ['/'] : Path) = ['/', '/'] from rfl] at h2
      rw [List.chain'_cons] at h2
      exact h2.1 ⟨rfl, rfl⟩
    · next hcond =>
      rw [if_neg hcond]
      rw [not_and] at hcond
      have hlen : ¬ 1 < (squeezeSlashes (p.map replaceSep)).length := fun hl => hcond hl h
      cases hsq : squeezeSlashes (p.map replaceSep) with
      | nil =>
        exfalso
        cases hp : p with
        | nil => exact he hp
        | cons a l =>
          rw [hp] at hsq
          rw [List.map_cons] at hsq
          exact squeezeSlashes_ne_nil _ _ hsq
      | cons x xs =>
        cases xs with
        | nil =>
          rw [hsq] at h
          simp at h
          rw [h]
          rw [if_neg he]
        | cons y ys =>
          exfalso
          rw [hsq] at hlen
          simp at hlen

/-! ## Characterizations of the hook registry operations -/

theorem hookMethod_spec (arch : Architecture) (now : Nat) (s : SubstrateHook)
    (t h b : Nat) :
    SubstrateHook.hookMethod arch now s t h b =
      if s.mIsInitialized = true ∧ t ≠ 0 ∧ h ≠ 0 ∧ arch ≠ Architecture.ARCH_UNKNOWN then
        (true, { s with mHookManager := alInsert ltNat t (mkHookInfo arch now t h b) s.mHookManager })
      else (false, s) := by
  cases hi : s.mIsInitialized <;> cases arch <;> by_cases ht : t = 0 <;>
    by_cases hh : h = 0 <;>
    simp [SubstrateHook.hookMethod, hookMethodARM, hookMethodARM64,
      hookMethodX86, hookMethodX86_64, mkHookInfo, hi, ht, hh]

theorem unhookMethod_notfound (s : SubstrateHook) (t : Nat)
    (hf : alFind t s.mHookManager = none) :
    SubstrateHook.unhookMethod s t = (false, s) := by
  cases hi : s.mIsInitialized <;>
    simp [SubstrateHook.unhookMethod, hi, hf]

theorem unhookMethod_found (s : SubstrateHook) (t : Nat) (info : HookInfo)
    (hinit : s.mIsInitialized = true) (hf : alFind t s.mHookManager = some info)
    (harch : info.architecture ≠ Architecture.ARCH_UNKNOWN) :
    SubstrateHook.unhookMethod s t =
      (true, { s with mHookManager := alErase t s.mHookManager }) := by
  cases hiarch : info.architecture
  · exact absurd hiarch harch
  all_goals
    simp [SubstrateHook.unhookMethod, hinit, hf, hiarch, unhookMethodARM,
      unhookMethodARM64, unhookMethodX86, unhookMethodX86_64]

theorem hookMethod_inv (arch : Architecture) (now : Nat) (s : SubstrateHook)
    (t h b : Nat) (hinv : subInv arch s) :
    subInv arch (SubstrateHook.hookMethod arch now s t h b).2 := by
  rw [hookMethod_spec]
  split
  · next hc =>
    refine ⟨hinv.1, ?_, ?_⟩
    · intro e he
      rcases alInsert_mem ltNat ltNat_anti t (mkHookInfo arch now t h b)
          s.mHookManager e he with he' | he'
      · rw [he']
        simpa [mkHookInfo] using hc.2.2.2
      · exact hinv.2.1 e he'
    · exact alInsert_sorted ltNat ltNat_anti ltNat_trans _ _ _ hinv.2.2
  · exact hinv

theorem unhookMethod_inv (arch : Architecture) (s : SubstrateHook) (t : Nat)
    (hinv : subInv arch s) :
    subInv arch (SubstrateHook.unhookMethod s t).2 := by
  cases hf : alFind t s.mHookManager with
  | none =>
    rw [unhookMethod_notfound s t hf]
    exact hinv
  | some info =>
    have harch : info.architecture ≠ Architecture.ARCH_UNKNOWN :=
      hinv.2.1 (t, info) (alFind_mem t info _ hf)
    rw [unhookMethod_found s t info hinv.1 hf harch]
    refine ⟨hinv.1, ?_, alErase_sorted ltNat t _ hinv.2.2⟩
    intro e he
    exact hinv.2.1 e ((alErase_sublist t s.mHookManager).subset he)

theorem isMethodHooked_eq (s : SubstrateHook) (t : Nat) (h : s.mIsInitialized = true) :
    SubstrateHook.isMethodHooked s t = alContains t s.mHookManager := by
  rw [SubstrateHook.isMethodHooked, h]
  simp

theorem hooked_after_hook (arch : Architecture) (now : Nat) (s : SubstrateHook)
    (t' h' b' t : Nat) (hinv : subInv arch s) :
    SubstrateHook.isMethodHooked (SubstrateHook.hookMethod arch now s t' h' b').2 t =
      specStep arch t (SubstrateHook.isMethodHooked s t) (SubOp.hook t' h' b' now) := by
  have hinit := hinv.1
  rw [specStep, isMethodHooked_eq s t hinit, hookMethod_spec]
  by_cases hc : t' ≠ 0 ∧ h' ≠ 0 ∧ arch ≠ Architecture.ARCH_UNKNOWN
  · rw [if_pos ⟨hinit, hc⟩]
    dsimp only
    rw [isMethodHooked_eq { s with mHookManager := alInsert ltNat t' (mkHookInfo arch now t' h' b') s.mHookManager } t hinit]
    by_cases ht : t' = t
    · subst ht
      rw [if_pos ⟨rfl, hc⟩]
      simp only [alContains]
      rw [alFind_insert_self ltNat ltNat_irrefl ltNat_anti]
      rfl
    · rw [if_neg (fun hx => ht hx.1)]
      simp only [alContains]
      rw [alFind_insert_ne ltNat ltNat_anti t' t _ (fun he => ht he.symm)]
  · rw [if_neg (fun hx => hc ⟨hx.2.1, hx.2.2⟩)]
    dsimp only
    rw [isMethodHooked_eq s t hinit]
    rw [if_neg (fun hx => hc ⟨hx.2.1, hx.2.2.1, hx.2.2.2⟩)]

theorem hooked_after_unhook (arch : Architecture) (s : SubstrateHook) (t' t : Nat)
    (hinv : subInv arch s) :
    SubstrateHook.isMethodHooked (SubstrateHook.unhookMethod s t').2 t =
      specStep arch t (SubstrateHook.isMethodHooked s t) (SubOp.unhook t') := by
  have hinit := hinv.1
  rw [specStep, isMethodHooked_eq s t hinit]
  cases hf : alFind t' s.mHookManager with
  | none =>
    rw [unhookMethod_notfound s t' hf]
    dsimp only
    rw [isMethodHooked_eq s t hinit]
    by_cases ht : t' = t
    · subst ht
      rw [if_pos rfl]
      simp [alContains, hf]
    · rw [if_neg ht]
  | some info =>
    have harch : info.architecture ≠ Architecture.ARCH_UNKNOWN :=
      hinv.2.1 (t', info) (alFind_mem t' info _ hf)
    rw [unhookMethod_found s t' info hinit hf harch]
    dsimp only
    rw [isMethodHooked_eq { s with mHookManager := alErase t' s.mHookManager } t hinit]
    by_cases ht : t' = t
    · subst ht
      rw [if_pos rfl]
      simp only [alContains]
      rw [alFind_erase_self t' _ (alSorted_nodup ltNat ltNat_irrefl _ hinv.2.2)]
      rfl
    · rw [if_neg ht]
      simp only [alContains]
      rw [alFind_erase_ne t' t (fun he => ht he.symm)]

theorem runOps_hooked (arch : Architecture) (t : Nat) :
    ∀ (ops : List SubOp) (s : SubstrateHook), subInv arch s →
      SubstrateHook.isMethodHooked (runOps arch s ops) t =
        specHooked arch t (SubstrateHook.isMethodHooked s t) ops
  | [], s, _ => by rw [runOps, specHooked]
  | SubOp.hook t' h' b' now :: rest, s, hinv => by
    rw [runOps, specHooked]
    rw [← hooked_after_hook arch now s t' h' b' t hinv]
    exact runOps_hooked arch t rest _ (hookMethod_inv arch now s t' h' b' hinv)
  | SubOp.unhook t' :: rest, s, hinv => by
    rw [runOps, specHooked]
    rw [← hooked_after_unhook arch s t' t hinv]
    exact runOps_hooked arch t rest _ (unhookMethod_inv arch s t' hinv)


/-! ## Redirect-level helper lemmas -/

theorem redirectPath_nomatch (s : IORelocator) (p : Path)
    (h : ∀ x ∈ s.mPathMappings, x.1.isPrefixOf (normalizePath p) = false ∨ x.1 = []) :
    IORelocator.redirectPath s p = p := by
  rw [IORelocator.redirectPath]
  by_cases hinit : s.mIsInitialized = false
  · rw [if_pos hinit]
  · rw [if_neg hinit]
    rw [fbm_nomatch (normalizePath p) s.mPathMappings ([], [], 0) h]
    rw [if_neg (by simp)]

theorem redirectPath_select (s : IORelocator) (p o v : Path)
    (hinit : s.mIsInitialized = true)
    (hnd : (s.mPathMappings.map Prod.fst).Nodup)
    (hm : (o, v) ∈ s.mPathMappings)
    (hp : o.isPrefixOf (normalizePath p) = true)
    (hne : o ≠ [])
    (hmax : ∀ x ∈ s.mPathMappings, x.1.isPrefixOf (normalizePath p) = true →
      x.1.length ≤ o.length) :
    IORelocator.redirectPath s p = v ++ (normalizePath p).drop o.length := by
  rw [IORelocator.redirectPath, hinit]
  rw [if_neg (by decide)]
  rw [fbm_select (normalizePath p) s.mPathMappings o v hm hp hne hmax hnd]
  dsimp only
  rw [if_pos hne]

theorem exists_max_match (np : Path) (m : List (Path × Path)) (x : Path × Path)
    (hx : x ∈ m) (hne : x.1 ≠ []) (hp : x.1.isPrefixOf np = true) :
    ∃ o v, (o, v) ∈ m ∧ o.isPrefixOf np = true ∧ o ≠ [] ∧
      ∀ y ∈ m, y.1.isPrefixOf np = true → y.1.length ≤ o.length := by
  rcases fbm_result np m ([], [], 0) with h | ⟨o, v, hm, hp', hlt, heq⟩
  · exfalso
    have hge := fbm_ge np m ([], [], 0) x.1 x.2 (by simpa using hx) hp
    rw [h] at hge
    simp at hge
    exact hne hge
  · refine ⟨o, v, hm, hp', ?_, ?_⟩
    · intro he
      rw [he] at hlt
      simp at hlt
    · intro y hy hpy
      have hge := fbm_ge np m ([], [], 0) y.1 y.2 (by simpa using hy) hpy
      rw [heq] at hge
      exact hge

theorem redirectPath_match (s : IORelocator) (p : Path)
    (hinit : s.mIsInitialized = true)
    (hex : ∃ x ∈ s.mPathMappings, x.1 ≠ [] ∧ x.1.isPrefixOf (normalizePath p) = true) :
    ∃ o v, (o, v) ∈ s.mPathMappings ∧ o.isPrefixOf (normalizePath p) = true ∧ o ≠ [] ∧
      IORelocator.redirectPath s p = v ++ (normalizePath p).drop o.length := by
  rcases hex with ⟨x, hx, hne, hp⟩
  rcases fbm_result (normalizePath p) s.mPathMappings ([], [], 0) with
    h | ⟨o, v, hm, hp', hlt, heq⟩
  · exfalso
    have hge := fbm_ge (normalizePath p) s.mPathMappings ([], [], 0) x.1 x.2
      (by simpa using hx) hp
    rw [h] at hge
    simp at hge
    exact hne hge
  · have hone : o ≠ [] := by
      intro he
      rw [he] at hlt
      simp at hlt
    refine ⟨o, v, hm, hp', hone, ?_⟩
    rw [IORelocator.redirectPath, hinit]
    rw [if_neg (by decide)]
    rw [heq]
    dsimp only
    rw [if_pos hone]

/-! ## Claim theorems -/

/-- C1: on an initialized facade, `redirectPath` normalizes the input and,
among all rules of the (duplicate-free) table whose normalized original
prefix is a string prefix of the normalized input, applies the rule of
greatest original-prefix length, returning the rule's virtual prefix
concatenated with the remainder of the normalized path after the matched
prefix. -/
theorem c1_longest_prefix_match (s : IORelocator) (p o v : Path)
    (hinit : s.mIsInitialized = true)
    (hnd : (s.mPathMappings.map Prod.fst).Nodup)
    (hm : (o, v) ∈ s.mPathMappings)
    (hp : o.isPrefixOf (normalizePath p) = true)
    (hne : o ≠ [])
    (hmax : ∀ x ∈ s.mPathMappings, x.1.isPrefixOf (normalizePath p) = true →
      x.1.length ≤ o.length) :
    IORelocator.redirectPath s p = v ++ (normalizePath p).drop o.length :=
  redirectPath_select s p o v hinit hnd hm hp hne hmax

/-- C1 witness: with the spec's rules `/data → /vdata` and
`/data/app → /vdata/app2`, `/data/app/foo` resolves to `/vdata/app2/foo` and
`/data/other` to `/vdata/other`. -/
theorem c1_witness :
    IORelocator.redirectPath ⟨true, [("/data".toList, "/vdata".toList), ("/data/app".toList, "/vdata/app2".toList)]⟩ "/data/app/foo".toList = "/vdata/app2/foo".toList ∧
    IORelocator.redirectPath ⟨true, [("/data".toList, "/vdata".toList), ("/data/app".toList, "/vdata/app2".toList)]⟩ "/data/other".toList = "/vdata/other".toList := by
  constructor
  · rw [c1_longest_prefix_match ⟨true, [("/data".toList, "/vdata".toList), ("/data/app".toList, "/vdata/app2".toList)]⟩ "/data/app/foo".toList "/data/app".toList "/vdata/app2".toList rfl (by decide) (by decide) (by decide) (by decide) (by decide)]
    decide
  · rw [c1_longest_prefix_match ⟨true, [("/data".toList, "/vdata".toList), ("/data/app".toList, "/vdata/app2".toList)]⟩ "/data/other".toList "/data".toList "/vdata".toList rfl (by decide) (by decide) (by decide) (by decide) (by decide)]
    decide

/-- C4: resolution is deterministic and independent of any ordering of the
rule table: two rules of a duplicate-free table that both match the
normalized input with equal prefix length are one and the same rule (so the
tie the claim describes can only involve a single rule, which is trivially
the first inserted), and `redirectPath` answers identically on any
permutation of the table. -/
theorem c4_tie_break_deterministic (m1 m2 : List (Path × Path)) (p : Path)
    (hperm : m1.Perm m2) (hnd : (m1.map Prod.fst).Nodup) :
    (∀ o1 v1 o2 v2, (o1, v1) ∈ m1 → (o2, v2) ∈ m1 →
      o1.isPrefixOf (normalizePath p) = true → o2.isPrefixOf (normalizePath p) = true →
      o1.length = o2.length → (o1, v1) = (o2, v2)) ∧
    IORelocator.redirectPath ⟨true, m1⟩ p = IORelocator.redirectPath ⟨true, m2⟩ p := by
  constructor
  · intro o1 v1 o2 v2 h1 h2 hp1 hp2 hlen
    have ho : o1 = o2 := eq_of_prefix_length o1 o2 (normalizePath p) hp1 hp2 hlen
    subst ho
    have hv : v1 = v2 := mem_value_eq o1 v1 v2 m1 h1 h2 hnd
    rw [hv]
  · have hnd2 : (m2.map Prod.fst).Nodup := ((hperm.map Prod.fst).nodup_iff).mp hnd
    by_cases hex : ∃ x ∈ m1, x.1 ≠ [] ∧ x.1.isPrefixOf (normalizePath p) = true
    · rcases hex with ⟨x, hx, hxne, hxp⟩
      rcases exists_max_match (normalizePath p) m1 x hx hxne hxp with
        ⟨o, v, hm, hpo, hone, hmax⟩
      have e1 := redirectPath_select ⟨true, m1⟩ p o v rfl hnd hm hpo hone hmax
      have e2 := redirectPath_select ⟨true, m2⟩ p o v rfl hnd2 (hperm.mem_iff.mp hm)
        hpo hone (fun y hy hpy => hmax y (hperm.mem_iff.mpr hy) hpy)
      rw [e1, e2]
    · push_neg at hex
      have h1 : ∀ x ∈ m1, x.1.isPrefixOf (normalizePath p) = false ∨ x.1 = [] := by
        intro y hy
        by_cases hyne : y.1 = []
        · exact Or.inr hyne
        · cases hb : y.1.isPrefixOf (normalizePath p) with
          | false => exact Or.inl rfl
          | true => exact absurd hb (hex y hy hyne)
      have h2 : ∀ x ∈ m2, x.1.isPrefixOf (normalizePath p) = false ∨ x.1 = [] :=
        fun y hy => h1 y (hperm.mem_iff.mpr hy)
      rw [redirectPath_nomatch ⟨true, m1⟩ p h1, redirectPath_nomatch ⟨true, m2⟩ p h2]

/-- C4 witness: swapping the two rules of a concrete table leaves the
resolution of `/a/q` unchanged. -/
theorem c4_witness :
    IORelocator.redirectPath ⟨true, [("/a".toList, "/x".toList), ("/b".toList, "/y".toList)]⟩ "/a/q".toList =
      IORelocator.redirectPath ⟨true, [("/b".toList, "/y".toList), ("/a".toList, "/x".toList)]⟩ "/a/q".toList :=
  (c4_tie_break_deterministic [("/a".toList, "/x".toList), ("/b".toList, "/y".toList)]
    [("/b".toList, "/y".toList), ("/a".toList, "/x".toList)] "/a/q".toList
    (by decide) (by decide)).2

/-- C5: `redirectPath` degrades gracefully: on a facade that is not
initialized it returns the input unchanged, and after `cleanup()` has run
(from any state) it returns the input unchanged. -/
theorem c5_graceful_degradation (w : VSpace) (p : Path) :
    (w.relocator.mIsInitialized = false → IORelocator.redirectPath w.relocator p = p) ∧
    IORelocator.redirectPath (IORelocator.cleanup w).relocator p = p := by
  constructor
  · intro h
    rw [IORelocator.redirectPath, if_pos h]
  · have h : (IORelocator.cleanup w).relocator.mIsInitialized = false := by
      rw [IORelocator.cleanup]
      split
      · next hc => exact hc
      · rfl
    rw [IORelocator.redirectPath, if_pos h]

/-- C5 witness: a fresh facade passes `/data` through unchanged, and an
active facade with a matching rule passes `/a/x` through unchanged once
`cleanup()` has run. -/
theorem c5_witness :
    IORelocator.redirectPath ⟨false, []⟩ "/data".toList = "/data".toList ∧
    IORelocator.redirectPath (IORelocator.cleanup ⟨⟨true, [("/a".toList, "/b".toList)]⟩, ⟨true, []⟩⟩).relocator "/a/x".toList = "/a/x".toList :=
  ⟨(c5_graceful_degradation ⟨⟨false, []⟩, ⟨false, []⟩⟩ "/data".toList).1 rfl,
   (c5_graceful_degradation ⟨⟨true, [("/a".toList, "/b".toList)]⟩, ⟨true, []⟩⟩ "/a/x".toList).2⟩

/-- C7: on an initialized facade whose table has no rule keyed by the
normalized `A`, `addPathMapping A B` succeeds, the following
`removePathMapping A` succeeds and restores the exact previous state, and
resolution of any path matched by no remaining rule returns that path
unmodified. -/
theorem c7_remove_reverts_add (s : IORelocator) (A B : Path)
    (hinit : s.mIsInitialized = true)
    (hA : normalizePath A ≠ []) (hB : normalizePath B ≠ [])
    (habsent : alFind (normalizePath A) s.mPathMappings = none) :
    (IORelocator.addPathMapping s A B).1 = true ∧
    (IORelocator.removePathMapping (IORelocator.addPathMapping s A B).2 A).1 = true ∧
    (IORelocator.removePathMapping (IORelocator.addPathMapping s A B).2 A).2 = s ∧
    ∀ p, (∀ x ∈ s.mPathMappings, x.1.isPrefixOf (normalizePath p) = false ∨ x.1 = []) →
      IORelocator.redirectPath
        (IORelocator.removePathMapping (IORelocator.addPathMapping s A B).2 A).2 p = p := by
  have hadd : IORelocator.addPathMapping s A B =
      (true, { s with mPathMappings := alInsert pathLt (normalizePath A) (normalizePath B) s.mPathMappings }) := by
    rw [IORelocator.addPathMapping, hinit]
    rw [if_neg (by decide)]
    rw [if_neg (by simp [hA, hB])]
  have hfind : alFind (normalizePath A)
      (alInsert pathLt (normalizePath A) (normalizePath B) s.mPathMappings) =
      some (normalizePath B) :=
    alFind_insert_self pathLt pathLt_irrefl pathLt_anti _ _ _
  have hrem : IORelocator.removePathMapping (IORelocator.addPathMapping s A B).2 A =
      (true, s) := by
    rw [hadd]
    dsimp only
    rw [IORelocator.removePathMapping]
    dsimp only
    rw [if_neg (by simp [hinit])]
    rw [hfind]
    dsimp only
    rw [alErase_alInsert pathLt pathLt_anti (normalizePath A) (normalizePath B)
      s.mPathMappings habsent]
  refine ⟨by rw [hadd], by rw [hrem], by rw [hrem], ?_⟩
  intro p hp
  rw [hrem]
  exact redirectPath_nomatch s p hp

/-- C7 witness: on an initialized empty table, adding `/data → /vdata` and
removing `/data` restores the empty table and `/data/x` resolves to itself. -/
theorem c7_witness :
    (IORelocator.addPathMapping ⟨true, []⟩ "/data".toList "/vdata".toList).1 = true ∧
    (IORelocator.removePathMapping (IORelocator.addPathMapping ⟨true, []⟩ "/data".toList "/vdata".toList).2 "/data".toList).1 = true ∧
    (IORelocator.removePathMapping (IORelocator.addPathMapping ⟨true, []⟩ "/data".toList "/vdata".toList).2 "/data".toList).2 = (⟨true, []⟩ : IORelocator) ∧
    IORelocator.redirectPath (IORelocator.removePathMapping (IORelocator.addPathMapping ⟨true, []⟩ "/data".toList "/vdata".toList).2 "/data".toList).2 "/data/x".toList = "/data/x".toList := by
  have h := c7_remove_reverts_add ⟨true, []⟩ "/data".toList "/vdata".toList rfl
    (by decide) (by decide) (by decide)
  exact ⟨h.1, h.2.1, h.2.2.1, h.2.2.2 "/data/x".toList (by decide)⟩

/-- C8: a second `initialize()` while the facade is Active is a no-op that
reports success: it returns `true` and the whole process state — path
mappings and hook registry included — is returned untouched. -/
theorem c8_initialize_idempotent (w : VSpace)
    (h : w.relocator.mIsInitialized = true) :
    IORelocator.initializeRelocator w = (true, w) := by
  rw [IORelocator.initializeRelocator, if_pos h]

/-- C8 witness: re-initializing an active facade with one rule and one
installed hook returns success and the identical state. -/
theorem c8_witness :
    IORelocator.initializeRelocator
      ⟨⟨true, [("/a".toList, "/b".toList)]⟩, ⟨true, [(7, ⟨7, 8, 9, Architecture.ARCH_ARM, 1⟩)]⟩⟩ =
    (true, ⟨⟨true, [("/a".toList, "/b".toList)]⟩, ⟨true, [(7, ⟨7, 8, 9, Architecture.ARCH_ARM, 1⟩)]⟩⟩) :=
  c8_initialize_idempotent
    ⟨⟨true, [("/a".toList, "/b".toList)]⟩, ⟨true, [(7, ⟨7, 8, 9, Architecture.ARCH_ARM, 1⟩)]⟩⟩ rfl

/-- C9 counterexample: with the normalized form of `/a` already mapped to
`/b`, re-adding it with the virtual path `""` (whose normalized form is
empty) returns failure and leaves the table unchanged — so a re-add does not
always return success. -/
theorem c9_counterexample :
    IORelocator.addPathMapping ⟨true, [("/a".toList, "/b".toList)]⟩ "/a".toList [] =
      (false, ⟨true, [("/a".toList, "/b".toList)]⟩) := by decide

/-- C9 (amended): on an initialized facade, re-adding a mapping for an
already-mapped original whose normalized form is nonempty, with a virtual
path whose normalized form is nonempty, returns success and silently
replaces the stored virtual prefix with the normalized new one (last write
wins), leaving every other key's entry unchanged. -/
theorem c9_last_write_wins (s : IORelocator) (o v2 v1 : Path)
    (hinit : s.mIsInitialized = true)
    (hmapped : alFind (normalizePath o) s.mPathMappings = some v1)
    (ho : normalizePath o ≠ [])
    (hv2 : normalizePath v2 ≠ []) :
    (IORelocator.addPathMapping s o v2).1 = true ∧
    alFind (normalizePath o) (IORelocator.addPathMapping s o v2).2.mPathMappings =
      some (normalizePath v2) ∧
    ∀ k, k ≠ normalizePath o →
      alFind k (IORelocator.addPathMapping s o v2).2.mPathMappings =
        alFind k s.mPathMappings := by
  have hadd : IORelocator.addPathMapping s o v2 =
      (true, { s with mPathMappings := alInsert pathLt (normalizePath o) (normalizePath v2) s.mPathMappings }) := by
    rw [IORelocator.addPathMapping, hinit]
    rw [if_neg (by decide)]
    rw [if_neg (by simp [ho, hv2])]
  refine ⟨by rw [hadd], ?_, ?_⟩
  · rw [hadd]
    exact alFind_insert_self pathLt pathLt_irrefl pathLt_anti _ _ _
  · intro k hk
    rw [hadd]
    exact alFind_insert_ne pathLt pathLt_anti _ k _ hk _

/-- C9 witness: re-adding `/a → /c` over the stored `/a → /b` succeeds,
stores `/c`, and leaves the `/d` entry untouched. -/
theorem c9_witness :
    (IORelocator.addPathMapping ⟨true, [("/a".toList, "/b".toList), ("/d".toList, "/e".toList)]⟩ "/a".toList "/c".toList).1 = true ∧
    alFind "/a".toList (IORelocator.addPathMapping ⟨true, [("/a".toList, "/b".toList), ("/d".toList, "/e".toList)]⟩ "/a".toList "/c".toList).2.mPathMappings = some "/c".toList ∧
    alFind "/d".toList (IORelocator.addPathMapping ⟨true, [("/a".toList, "/b".toList), ("/d".toList, "/e".toList)]⟩ "/a".toList "/c".toList).2.mPathMappings = alFind "/d".toList ([("/a".toList, "/b".toList), ("/d".toList, "/e".toList)] : List (Path × Path)) := by
  have h := c9_last_write_wins ⟨true, [("/a".toList, "/b".toList), ("/d".toList, "/e".toList)]⟩
    "/a".toList "/c".toList "/b".toList rfl (by decide) (by decide) (by decide)
  have h2 : normalizePath "/a".toList = "/a".toList := by decide
  refine ⟨h.1, ?_, ?_⟩
  · have := h.2.1
    rw [h2] at this
    rw [this]
    decide
  · exact h.2.2 "/d".toList (by decide)

/-- C10: the output of `redirectPath` is in normalized form exactly when a
rule matched.  When `(o, v)` is the longest matching rule of a
duplicate-free table, the output is `v` followed by the remainder of the
normalized input — which has all backslashes converted, no duplicate
separators, and no trailing separator (unless it is the root `/`) — whereas
any input matched by no rule is returned raw, byte for byte. -/
theorem c10_normalized_output_iff_match (s : IORelocator) (p o v : Path)
    (hinit : s.mIsInitialized = true)
    (hnd : (s.mPathMappings.map Prod.fst).Nodup)
    (hm : (o, v) ∈ s.mPathMappings)
    (hp : o.isPrefixOf (normalizePath p) = true)
    (hne : o ≠ [])
    (hmax : ∀ x ∈ s.mPathMappings, x.1.isPrefixOf (normalizePath p) = true →
      x.1.length ≤ o.length) :
    IORelocator.redirectPath s p = v ++ (normalizePath p).drop o.length ∧
    '\\' ∉ normalizePath p ∧
    noDoubleSlash (normalizePath p) ∧
    ((normalizePath p).getLast? = some '/' → normalizePath p = ['/']) ∧
    ∀ q, (∀ x ∈ s.mPathMappings, x.1.isPrefixOf (normalizePath q) = false ∨ x.1 = []) →
      IORelocator.redirectPath s q = q :=
  ⟨redirectPath_select s p o v hinit hnd hm hp hne hmax,
   normalizePath_noBackslash p,
   normalizePath_chain p,
   normalizePath_last p,
   fun q hq => redirectPath_nomatch s q hq⟩

/-- C10 witness: the messy input `\data//x\` is rewritten through the rule
`/data → /vdata` into the normalized `/vdata/x`, while the unmatched messy
input `//weird\` comes back raw, byte for byte. -/
theorem c10_witness :
    IORelocator.redirectPath ⟨true, [("/data".toList, "/vdata".toList)]⟩ "\\data//x\\".toList = "/vdata/x".toList ∧
    IORelocator.redirectPath ⟨true, [("/data".toList, "/vdata".toList)]⟩ "//weird\\".toList = "//weird\\".toList := by
  have h := c10_normalized_output_iff_match ⟨true, [("/data".toList, "/vdata".toList)]⟩
    "\\data//x\\".toList "/data".toList "/vdata".toList rfl (by decide) (by decide)
    (by decide) (by decide) (by decide)
  constructor
  · rw [h.1]
    decide
  · exact h.2.2.2.2 "//weird\\".toList (by decide)

/-- C3 counterexample: on an initialized registry that already holds a hook
record for target `100` (with backup/trampoline address `300`), a second
install on `100` returns success — not an AlreadyHooked failure — and the
stored record now carries the new backup address `301`: the registry entry
was silently overwritten. -/
theorem c3_counterexample :
    (SubstrateHook.hookMethod Architecture.ARCH_ARM64 7 ⟨true, [(100, ⟨100, 200, 300, Architecture.ARCH_ARM64, 5⟩)]⟩ 100 201 301).1 = true ∧
    alFind 100 (SubstrateHook.hookMethod Architecture.ARCH_ARM64 7 ⟨true, [(100, ⟨100, 200, 300, Architecture.ARCH_ARM64, 5⟩)]⟩ 100 201 301).2.mHookManager =
      some ⟨100, 201, 301, Architecture.ARCH_ARM64, 7⟩ := by decide

/-- C3 (amended): a target address never appears in the registry more than
once — the table is keyed by target — but installing on an already-hooked
target does not fail: it returns success and silently overwrites the stored
record in place (replacement, backup and timestamp updated; last write
wins), leaving entries for all other targets unchanged. -/
theorem c3_double_hook_overwrites (arch : Architecture) (now : Nat)
    (s : SubstrateHook) (t h b : Nat) (old : HookInfo)
    (hinit : s.mIsInitialized = true)
    (hsort : alSorted ltNat s.mHookManager)
    (hhooked : alFind t s.mHookManager = some old)
    (ht : t ≠ 0) (hh : h ≠ 0) (harch : arch ≠ Architecture.ARCH_UNKNOWN) :
    (SubstrateHook.hookMethod arch now s t h b).1 = true ∧
    alFind t (SubstrateHook.hookMethod arch now s t h b).2.mHookManager =
      some (mkHookInfo arch now t h b) ∧
    (∀ k, k ≠ t →
      alFind k (SubstrateHook.hookMethod arch now s t h b).2.mHookManager =
        alFind k s.mHookManager) ∧
    ((SubstrateHook.hookMethod arch now s t h b).2.mHookManager.map Prod.fst).Nodup := by
  have hspec := hookMethod_spec arch now s t h b
  rw [if_pos ⟨hinit, ht, hh, harch⟩] at hspec
  refine ⟨by rw [hspec], ?_, ?_, ?_⟩
  · rw [hspec]
    exact alFind_insert_self ltNat ltNat_irrefl ltNat_anti _ _ _
  · intro k hk
    rw [hspec]
    exact alFind_insert_ne ltNat ltNat_anti _ k _ hk _
  · rw [hspec]
    exact alSorted_nodup ltNat ltNat_irrefl _
      (alInsert_sorted ltNat ltNat_anti ltNat_trans _ _ _ hsort)

/-- C3 witness: re-installing on the already-hooked target `100` succeeds,
the record becomes the new one, the entry for `200` is untouched, and `100`
still occurs only once in the registry. -/
theorem c3_witness :
    (SubstrateHook.hookMethod Architecture.ARCH_X86 9 ⟨true, [(100, ⟨100, 7, 8, Architecture.ARCH_X86, 1⟩), (200, ⟨200, 3, 4, Architecture.ARCH_X86, 2⟩)]⟩ 100 11 12).1 = true ∧
    alFind 100 (SubstrateHook.hookMethod Architecture.ARCH_X86 9 ⟨true, [(100, ⟨100, 7, 8, Architecture.ARCH_X86, 1⟩), (200, ⟨200, 3, 4, Architecture.ARCH_X86, 2⟩)]⟩ 100 11 12).2.mHookManager = some (mkHookInfo Architecture.ARCH_X86 9 100 11 12) ∧
    alFind 200 (SubstrateHook.hookMethod Architecture.ARCH_X86 9 ⟨true, [(100, ⟨100, 7, 8, Architecture.ARCH_X86, 1⟩), (200, ⟨200, 3, 4, Architecture.ARCH_X86, 2⟩)]⟩ 100 11 12).2.mHookManager = alFind 200 ([(100, ⟨100, 7, 8, Architecture.ARCH_X86, 1⟩), (200, ⟨200, 3, 4, Architecture.ARCH_X86, 2⟩)] : List (Nat × HookInfo)) ∧
    ((SubstrateHook.hookMethod Architecture.ARCH_X86 9 ⟨true, [(100, ⟨100, 7, 8, Architecture.ARCH_X86, 1⟩), (200, ⟨200, 3, 4, Architecture.ARCH_X86, 2⟩)]⟩ 100 11 12).2.mHookManager.map Prod.fst).Nodup := by
  have h := c3_double_hook_overwrites Architecture.ARCH_X86 9
    ⟨true, [(100, ⟨100, 7, 8, Architecture.ARCH_X86, 1⟩), (200, ⟨200, 3, 4, Architecture.ARCH_X86, 2⟩)]⟩
    100 11 12 ⟨100, 7, 8, Architecture.ARCH_X86, 1⟩ rfl (by unfold alSorted; decide)
    (by decide) (by decide) (by decide) (by decide)
  exact ⟨h.1, h.2.1, h.2.2.1 200 (by decide), h.2.2.2⟩

/-- C6: for every finite sequence of install/uninstall calls against an
initialized registry whose records all belong to known architecture
backends (sorted table, as `std::map` keeps it), `isMethodHooked t` after
the run equals the ledger that switches on at each successful install of
`t` (nonnull addresses, known architecture) and off at each uninstall of
`t` that removes the record — i.e. exactly whether the most recent
successful operation on `t` was an install not yet matched by a successful
uninstall, failed uninstalls leaving the record in place. -/
theorem c6_hook_table_consistency (arch : Architecture) (s : SubstrateHook)
    (ops : List SubOp) (t : Nat)
    (hinit : s.mIsInitialized = true)
    (harch : ∀ e ∈ s.mHookManager, e.2.architecture ≠ Architecture.ARCH_UNKNOWN)
    (hsort : alSorted ltNat s.mHookManager) :
    SubstrateHook.isMethodHooked (runOps arch s ops) t =
      specHooked arch t (SubstrateHook.isMethodHooked s t) ops :=
  runOps_hooked arch t ops s ⟨hinit, harch, hsort⟩

/-- C6 witness: a concrete trace — install 100, uninstall 100, uninstall 100
again (fails, stays off), reinstall 100, install 0 (fails) — tracked from
the empty initialized registry agrees with the ledger. -/
theorem c6_witness :
    SubstrateHook.isMethodHooked
      (runOps Architecture.ARCH_ARM ⟨true, []⟩
        [SubOp.hook 100 200 300 1, SubOp.unhook 100, SubOp.unhook 100,
         SubOp.hook 100 201 301 2, SubOp.hook 0 5 6 3]) 100 =
    specHooked Architecture.ARCH_ARM 100
      (SubstrateHook.isMethodHooked ⟨true, []⟩ 100)
      [SubOp.hook 100 200 300 1, SubOp.unhook 100, SubOp.unhook 100,
       SubOp.hook 100 201 301 2, SubOp.hook 0 5 6 3] :=
  c6_hook_table_consistency Architecture.ARCH_ARM ⟨true, []⟩
    [SubOp.hook 100 200 300 1, SubOp.unhook 100, SubOp.unhook 100,
     SubOp.hook 100 201 301 2, SubOp.hook 0 5 6 3] 100 rfl (by decide)
    (by unfold alSorted; decide)
end VSpec
